import Mathlib

/-!
Verification of the limit-setting engine of the `ThesisPlots` repository
(`thesis_plots/recoil_rates/limit_setting.py`).

The development shallowly embeds the Python source:

* the thread fan-out of `LimitSetter.set_limits` becomes a small-step relation
  `Step` on `SchedState` (threads complete in an arbitrary order, the launch
  loop and the wait loop become guarded transitions);
* the grid walk of `LimitSetter._get_limit` becomes `collectCounts`;
* `scipy.interpolate.interp1d` (linear kind) becomes `sortPairs` /
  `interpSegments` / `interp1dSorted`, following scipy's sorted
  clipped-searchsorted evaluation; an out-of-range evaluation (NaN fill) is
  `Option.none`, and the constructor requirement of at least two data points is
  modelled by the guard in `getLimit`;
* the quadrature of `LimitSetter.integrate_rate` becomes a weighted sum over
  the (unspecified) evaluation nodes that `scipy.integrate.quad` picks inside
  of the integration interval;
* the lazily cached efficiency interpolator of class `LZ` becomes explicit
  state passing on `LZState`.

Machine floats are modelled by an arbitrary linear ordered field (instantiated
at `ℝ` for the statements that mention `10 ^ s`, and at `ℚ` for the concrete
witness runs).
-/

namespace ThesisPlots

/-! ## Scan scheduler (`LimitSetter.set_limits`) -/

/-- State of the thread fan-out in `LimitSetter.set_limits`: `nextIdx` is how many
solve tasks have been launched so far (launch follows mass-grid order), `threads`
is the Python `threads` list, one `(task index, is-alive)` entry per launched
thread that has not been filtered out yet (a finished thread stays in the list,
with its flag set to `false`, until the wait loop filters it), and `results` is
the shared result vector (`results = [0] * len(mass_range)` initially, each task
writes only its own slot). -/
structure SchedState (β : Type) where
  nextIdx : Nat
  threads : List (Nat × Bool)
  results : List β

/-- Initial state of a `set_limits` call over a mass grid of length `n`. -/
def initState (β : Type) (n : Nat) (b0 : β) : SchedState β :=
  ⟨0, [], List.replicate n b0⟩

/-- Number of threads that are currently alive. -/
def aliveCount {β : Type} (s : SchedState β) : Nat :=
  s.threads.countP (fun t => t.2)

/-- Effect of a finishing `_get_limit` thread on the result vector.  A task is
`some v` when the body runs to completion and executes `results[result_i] = v`,
and `none` when the body raises: a Python thread whose target raises prints the
traceback and dies, so the slot is left untouched. -/
def completeWrite {β : Type} (tasks : List (Option β)) (results : List β) (i : Nat) :
    List β :=
  match tasks.getD i none with
  | some v => results.set i v
  | none => results

/-- Small-step semantics of the scheduling loop of `set_limits`, with `tasks` the
per-index task outcomes and `k = n_threads`.

* `launch`: the launch loop starts the next thread; it only proceeds once the
  wait loop `while len(threads) > n_threads` has exited, i.e. when the current
  `threads` list has length at most `k`.
* `complete`: a running thread finishes (threads run concurrently, so this can
  interleave arbitrarily with the dispatcher); it performs its slot write and
  its `is_alive()` becomes false.
* `prune`: the body of the wait loop replaces `threads` by
  `[t for t in threads if t.is_alive()]`; it runs only while the guard
  `len(threads) > n_threads` holds. -/
inductive Step {β : Type} (tasks : List (Option β)) (k : Nat) :
    SchedState β → SchedState β → Prop
  | launch (s : SchedState β) (h : s.threads.length ≤ k) (hn : s.nextIdx < tasks.length) :
      Step tasks k s ⟨s.nextIdx + 1, s.threads ++ [(s.nextIdx, true)], s.results⟩
  | complete (s : SchedState β) (j : Nat) (hj : j < s.threads.length)
      (ha : (s.threads.get ⟨j, hj⟩).2 = true) :
      Step tasks k s
        ⟨s.nextIdx, s.threads.set j ((s.threads.get ⟨j, hj⟩).1, false),
          completeWrite tasks s.results (s.threads.get ⟨j, hj⟩).1⟩
  | prune (s : SchedState β) (h : k < s.threads.length) :
      Step tasks k s ⟨s.nextIdx, s.threads.filter (fun t => t.2), s.results⟩

/-- Reachability of a scheduler state from the start of `set_limits`. -/
def Reachable {β : Type} (tasks : List (Option β)) (b0 : β) (k : Nat)
    (s : SchedState β) : Prop :=
  Relation.ReflTransGen (Step tasks k) (initState β tasks.length b0) s

/-- The point at which `set_limits` returns (for `n_threads ≥ 1`): every task has
been launched and the final wait loop has observed that no thread is alive. -/
def Terminal {β : Type} (tasks : List (Option β)) (s : SchedState β) : Prop :=
  s.nextIdx = tasks.length ∧ aliveCount s = 0

/-- Value held by slot `i` after the task for index `i` has finished: the computed
value for a completing task, the untouched initial value for a raising task. -/
def expectedSlot {β : Type} (tasks : List (Option β)) (b0 : β) (i : Nat) : β :=
  (tasks.getD i none).getD b0

/-- Inductive invariant of the scheduler: the result vector keeps its length, all
launched indices are below `nextIdx`, a launched slot either already holds its
final value or is untouched while its thread is still alive, and unlaunched
slots are untouched. -/
def Inv {β : Type} (tasks : List (Option β)) (b0 : β) (s : SchedState β) : Prop :=
  s.results.length = tasks.length ∧
  s.nextIdx ≤ tasks.length ∧
  (∀ t ∈ s.threads, t.1 < s.nextIdx) ∧
  (∀ i, i < s.nextIdx →
      s.results.getD i b0 = expectedSlot tasks b0 i ∨
        (s.results.getD i b0 = b0 ∧ (i, true) ∈ s.threads)) ∧
  (∀ i, s.nextIdx ≤ i → s.results.getD i b0 = b0)

lemma inv_init {β : Type} (tasks : List (Option β)) (b0 : β) :
    Inv tasks b0 (initState β tasks.length b0) := by
  refine ⟨by simp [initState], by simp [initState], by simp [initState], ?_, ?_⟩
  · intro i hi
    exact absurd hi (Nat.not_lt_zero i)
  · intro i _
    simp only [initState, List.getD_eq_getElem?_getD, List.getElem?_replicate]
    split <;> simp

lemma getD_set_ne {γ : Type} (l : List γ) (i j : Nat) (v d : γ) (h : i ≠ j) :
    (l.set i v).getD j d = l.getD j d := by
  simp [List.getD_eq_getElem?_getD, List.getElem?_set_ne h]

lemma getD_set_self {γ : Type} (l : List γ) (i : Nat) (v d : γ) (h : i < l.length) :
    (l.set i v).getD i d = v := by
  simp [List.getD_eq_getElem?_getD, List.getElem?_set_self h]

lemma inv_step {β : Type} {tasks : List (Option β)} {b0 : β} {k : Nat}
    {s s2 : SchedState β} (hs : Step tasks k s s2) (hI : Inv tasks b0 s) :
    Inv tasks b0 s2 := by
  obtain ⟨h1, h2, h3, h4, h5⟩ := hI
  cases hs with
  | launch h hn =>
      refine ⟨h1, hn, ?_, ?_, ?_⟩
      · intro t ht
        rcases List.mem_append.1 ht with ht | ht
        · exact Nat.lt_succ_of_lt (h3 t ht)
        · simp only [List.mem_singleton] at ht
          subst ht
          exact Nat.lt_succ_self _
      · intro i hi
        rcases Nat.lt_succ_iff_lt_or_eq.1 hi with hi | hi
        · rcases h4 i hi with hc | ⟨hc, hmem⟩
          · exact Or.inl hc
          · exact Or.inr ⟨hc, List.mem_append.2 (Or.inl hmem)⟩
        · subst hi
          exact Or.inr ⟨h5 _ le_rfl, List.mem_append.2 (Or.inr (by simp))⟩
      · intro i hi
        exact h5 i (Nat.le_of_succ_le hi)
  | complete j hj ha =>
      have hTmem : s.threads.get ⟨j, hj⟩ ∈ s.threads := List.get_mem _ _ hj
      have hc_lt : (s.threads.get ⟨j, hj⟩).1 < s.nextIdx := h3 _ hTmem
      have hresW : ∀ i, i ≠ (s.threads.get ⟨j, hj⟩).1 →
          (completeWrite tasks s.results (s.threads.get ⟨j, hj⟩).1).getD i b0 =
            s.results.getD i b0 := by
        intro i hic
        unfold completeWrite
        split
        · exact getD_set_ne _ _ _ _ _ (fun he => hic he.symm)
        · rfl
      have hlenW : (completeWrite tasks s.results (s.threads.get ⟨j, hj⟩).1).length =
          s.results.length := by
        unfold completeWrite
        split <;> simp
      refine ⟨by rw [hlenW]; exact h1, h2, ?_, ?_, ?_⟩
      · intro t ht
        rcases List.mem_or_eq_of_mem_set ht with ht | ht
        · exact h3 t ht
        · subst ht
          exact hc_lt
      · intro i hi
        by_cases hic : i = (s.threads.get ⟨j, hj⟩).1
        · left
          rw [hic]
          rcases htask : tasks.getD (s.threads.get ⟨j, hj⟩).1 none with _ | v
          · have hw : completeWrite tasks s.results (s.threads.get ⟨j, hj⟩).1 = s.results := by
              unfold completeWrite
              rw [htask]
            rw [hw, expectedSlot, htask]
            rcases h4 _ hc_lt with hc | ⟨hc, _⟩
            · rw [hc, expectedSlot, htask]
            · rw [hc]
              rfl
          · have hw : completeWrite tasks s.results (s.threads.get ⟨j, hj⟩).1 =
                s.results.set (s.threads.get ⟨j, hj⟩).1 v := by
              unfold completeWrite
              rw [htask]
            have hclen : (s.threads.get ⟨j, hj⟩).1 < s.results.length := by
              rw [h1]; exact Nat.lt_of_lt_of_le hc_lt h2
            rw [hw, getD_set_self _ _ _ _ hclen, expectedSlot, htask]
            rfl
        · rcases h4 i hi with hc | ⟨hc, hmem⟩
          · exact Or.inl ((hresW i hic).trans hc)
          · refine Or.inr ⟨(hresW i hic).trans hc, ?_⟩
            rcases List.mem_iff_getElem.1 hmem with ⟨p, hplen, hp⟩
            have hpj : p ≠ j := by
              intro hpj
              apply hic
              have hgj : s.threads.get ⟨j, hj⟩ = (i, true) := by
                rw [List.get_eq_getElem]
                subst hpj
                exact hp
              rw [hgj]
            have hplen2 : p < (s.threads.set j ((s.threads.get ⟨j, hj⟩).1, false)).length := by
              simpa using hplen
            refine List.mem_iff_getElem.2 ⟨p, hplen2, ?_⟩
            rw [List.getElem_set_ne (fun he => hpj he.symm)]
            exact hp
      · intro i hi
        have hic : i ≠ (s.threads.get ⟨j, hj⟩).1 := by
          intro he
          exact absurd (he ▸ hi) (Nat.not_le_of_lt hc_lt)
        exact (hresW i hic).trans (h5 i hi)
  | prune h =>
      refine ⟨h1, h2, ?_, ?_, h5⟩
      · intro t ht
        exact h3 t (List.mem_of_mem_filter ht)
      · intro i hi
        rcases h4 i hi with hc | ⟨hc, hmem⟩
        · exact Or.inl hc
        · exact Or.inr ⟨hc, List.mem_filter.2 ⟨hmem, rfl⟩⟩

lemma inv_reachable {β : Type} {tasks : List (Option β)} {b0 : β} {k : Nat}
    {s : SchedState β} (hr : Reachable tasks b0 k s) : Inv tasks b0 s := by
  induction hr with
  | refl => exact inv_init tasks b0
  | tail _ hstep ih => exact inv_step hstep ih

/-- In any terminal (normal-return) state the result vector has the same length as
the task list and each slot holds the value its own task left there. -/
lemma terminal_slots {β : Type} {tasks : List (Option β)} {b0 : β} {k : Nat}
    {s : SchedState β} (hr : Reachable tasks b0 k s) (hterm : Terminal tasks s) :
    s.results.length = tasks.length ∧
      ∀ i, i < tasks.length → s.results.getD i b0 = expectedSlot tasks b0 i := by
  obtain ⟨hl, _, _, h4, _⟩ := inv_reachable hr
  refine ⟨hl, fun i hi => ?_⟩
  rcases h4 i (hterm.1 ▸ hi) with hc | ⟨_, hmem⟩
  · exact hc
  · exfalso
    have := List.countP_eq_zero.1 hterm.2 _ hmem
    simp at this

/-- C1: the launch guard of `set_limits` is the strict test
`while len(threads) > n_threads`, so with `n_threads = 1` the scheduler may start a
second solve task while the first is still alive: the state with two
simultaneously alive tasks is reachable.  This contradicts the claimed cap
(`never exceeds k`, sequential for `k = 1`) and the docstring of `set_limits`
(`default means no multithreading`). -/
theorem C1_two_alive_with_thread_limit_one :
    Reachable ([some 0, some 0] : List (Option Nat)) 0 1
      ⟨2, [(0, true), (1, true)], [0, 0]⟩ ∧
    aliveCount (⟨2, [(0, true), (1, true)], [0, 0]⟩ : SchedState Nat) = 2 := by
  constructor
  · have s1 : Step ([some 0, some 0] : List (Option Nat)) 1
        (initState Nat 2 0) ⟨1, [(0, true)], [0, 0]⟩ := by
      apply Step.launch <;> decide
    have s2 : Step ([some 0, some 0] : List (Option Nat)) 1
        (⟨1, [(0, true)], [0, 0]⟩ : SchedState Nat) ⟨2, [(0, true), (1, true)], [0, 0]⟩ := by
      apply Step.launch <;> decide
    exact Relation.ReflTransGen.tail (Relation.ReflTransGen.single s1) s2
  · decide

/-- C2 counterexample: a run whose single solve task raises still reaches the
normal return point of `set_limits` with its result slot left at the initial
value `0`, and a second run whose task genuinely computes the value `0` returns
the identical result vector `[0]`: the failure is silently dropped and
indistinguishable from a computed zero. -/
theorem C2_counterexample :
    (Reachable ([none] : List (Option Nat)) 0 1 ⟨1, [(0, false)], [0]⟩ ∧
        Terminal ([none] : List (Option Nat)) ⟨1, [(0, false)], [0]⟩) ∧
    (Reachable ([some 0] : List (Option Nat)) 0 1 ⟨1, [(0, false)], [0]⟩ ∧
        Terminal ([some 0] : List (Option Nat)) ⟨1, [(0, false)], [0]⟩) := by
  refine ⟨⟨?_, by constructor <;> decide⟩, ⟨?_, by constructor <;> decide⟩⟩
  · have s1 : Step ([none] : List (Option Nat)) 1
        (initState Nat 1 0) ⟨1, [(0, true)], [0]⟩ := by
      apply Step.launch <;> decide
    have s2 : Step ([none] : List (Option Nat)) 1
        (⟨1, [(0, true)], [0]⟩ : SchedState Nat) ⟨1, [(0, false)], [0]⟩ := by
      exact Step.complete _ 0 (by decide) rfl
    exact Relation.ReflTransGen.tail (Relation.ReflTransGen.single s1) s2
  · have s1 : Step ([some 0] : List (Option Nat)) 1
        (initState Nat 1 0) ⟨1, [(0, true)], [0]⟩ := by
      apply Step.launch <;> decide
    have s2 : Step ([some 0] : List (Option Nat)) 1
        (⟨1, [(0, true)], [0]⟩ : SchedState Nat) ⟨1, [(0, false)], [0]⟩ := by
      exact Step.complete _ 0 (by decide) rfl
    exact Relation.ReflTransGen.tail (Relation.ReflTransGen.single s1) s2

/-- C2 amended: when the solve task for index `i` raises, `set_limits` still
returns normally and slot `i` retains the initial sentinel value, which is the
same value a task computing zero would leave there; the failure is not
propagated. -/
theorem C2_amended_failure_leaves_sentinel {β : Type} (tasks : List (Option β))
    (b0 : β) (k : Nat) (s : SchedState β) (i : Nat) (hi : i < tasks.length)
    (hfail : tasks.getD i none = none)
    (hr : Reachable tasks b0 k s) (hterm : Terminal tasks s) :
    s.results.getD i b0 = b0 := by
  have h := (terminal_slots hr hterm).2 i hi
  rw [h, expectedSlot, hfail]
  rfl

/-- Witness for the amended C2 statement on the concrete failing one-task run. -/
theorem C2_amended_failure_leaves_sentinel_witness :
    (⟨1, [(0, false)], [0]⟩ : SchedState Nat).results.getD 0 0 = 0 := by
  have s1 : Step ([none] : List (Option Nat)) 1
      (initState Nat 1 0) ⟨1, [(0, true)], [0]⟩ := by
    apply Step.launch <;> decide
  have s2 : Step ([none] : List (Option Nat)) 1
      (⟨1, [(0, true)], [0]⟩ : SchedState Nat) ⟨1, [(0, false)], [0]⟩ := by
    exact Step.complete _ 0 (by decide) rfl
  exact C2_amended_failure_leaves_sentinel [none] 0 1 ⟨1, [(0, false)], [0]⟩ 0
    (by decide) rfl
    (Relation.ReflTransGen.tail (Relation.ReflTransGen.single s1) s2)
    (by constructor <;> decide)

/-- C7: for every mass grid, every concurrency setting `n_threads ≥ 1` and every
completion order of the (non-raising) solve tasks, at the return point of
`set_limits` the result vector has the same length as the mass grid, and slot
`i` holds exactly the limit computed for `mass_grid[i]`. -/
theorem C7_results_aligned_with_grid {γ β : Type} (grid : List γ) (solve : γ → β)
    (b0 : β) (k : Nat) (s : SchedState β) (hk : 1 ≤ k)
    (hr : Reachable (grid.map (fun m => some (solve m))) b0 k s)
    (hterm : Terminal (grid.map (fun m => some (solve m))) s) :
    s.results.length = grid.length ∧ s.results = grid.map solve := by
  obtain ⟨hl, hslots⟩ := terminal_slots hr hterm
  have hlen : s.results.length = grid.length := by simpa using hl
  refine ⟨hlen, ?_⟩
  refine List.ext_getElem (by simpa using hlen) ?_
  intro i hi1 hi2
  have hi : i < grid.length := by simpa using hi2
  have hslot := hslots i (by simpa using hi)
  rw [List.getD_eq_getElem _ _ hi1] at hslot
  rw [hslot, expectedSlot, List.getD_eq_getElem _ _ (by simpa using hi),
    List.getElem_map, List.getElem_map]
  rfl

/-- Witness for C7 on a concrete one-mass run: mass grid `[5]`, solve function
`n + 1`, so the terminal result vector is `[6]`. -/
theorem C7_results_aligned_with_grid_witness :
    (⟨1, [(0, false)], [6]⟩ : SchedState Nat).results.length = ([5] : List Nat).length ∧
    (⟨1, [(0, false)], [6]⟩ : SchedState Nat).results = ([5] : List Nat).map (fun n => n + 1) := by
  have s1 : Step (([5] : List Nat).map (fun n => some (n + 1))) 1
      (initState Nat 1 0) ⟨1, [(0, true)], [0]⟩ := by
    apply Step.launch <;> decide
  have s2 : Step (([5] : List Nat).map (fun n => some (n + 1))) 1
      (⟨1, [(0, true)], [0]⟩ : SchedState Nat) ⟨1, [(0, false)], [6]⟩ := by
    exact Step.complete _ 0 (by decide) rfl
  exact C7_results_aligned_with_grid [5] (fun n => n + 1) 0 1 ⟨1, [(0, false)], [6]⟩
    le_rfl
    (Relation.ReflTransGen.tail (Relation.ReflTransGen.single s1) s2)
    (by constructor <;> decide)

/-! ## Linear interpolation (`scipy.interpolate.interp1d`, linear kind) -/

/-- Key order on `(x, y)` data points: interp1d sorts its data by x via a stable
argsort (`assume_sorted=False` is the default and is what the source uses). -/
def pairKeyLE {α : Type} [LinearOrderedField α] (p q : α × α) : Prop := p.1 ≤ q.1

instance {α : Type} [LinearOrderedField α] : DecidableRel (@pairKeyLE α _) :=
  fun p q => inferInstanceAs (Decidable (p.1 ≤ q.1))

instance {α : Type} [LinearOrderedField α] : IsTotal (α × α) (@pairKeyLE α _) :=
  ⟨fun p q => le_total p.1 q.1⟩

instance {α : Type} [LinearOrderedField α] : IsTrans (α × α) (@pairKeyLE α _) :=
  ⟨fun _ _ _ h1 h2 => le_trans h1 h2⟩

/-- Sorting of the data points by x, performed inside the interp1d constructor. -/
def sortPairs {α : Type} [LinearOrderedField α] (pts : List (α × α)) : List (α × α) :=
  pts.insertionSort pairKeyLE

/-- Model of `np.searchsorted(xs, x)` with side `left`: index of the first
element that is at least `x`, or the length when there is none. -/
def searchsortedLeft {α : Type} [LinearOrderedField α] (xs : List α) (x : α) : Nat :=
  xs.findIdx (fun v => decide (x ≤ v))

/-- Index of the upper end of the interpolation segment scipy picks for `x`:
searchsorted on the x data, clipped into `[1, n - 1]`. -/
def segIdx {α : Type} [LinearOrderedField α] (pts : List (α × α)) (x : α) : Nat :=
  min (max (searchsortedLeft (pts.map Prod.fst) x) 1) (pts.length - 1)

/-- Evaluation of the interpolant at `x` for x-sorted data points, after scipy
`_call_linear`: `slope = (y_hi - y_lo) / (x_hi - x_lo)` and
`y_new = slope * (x_new - x_lo) + y_lo` on the clipped segment. -/
def interpSegments {α : Type} [LinearOrderedField α] (pts : List (α × α)) (x : α) : α :=
  let p := pts.getD (segIdx pts x - 1) (0, 0)
  let q := pts.getD (segIdx pts x) (0, 0)
  p.2 + (x - p.1) * (q.2 - p.2) / (q.1 - p.1)

/-- Bounds handling of interp1d with `bounds_error=False` and default fill: an
`x` outside the data range evaluates to NaN, modelled as `none`. -/
def interp1dSorted {α : Type} [LinearOrderedField α] (pts : List (α × α)) (x : α) :
    Option α :=
  if x < (pts.getD 0 (0, 0)).1 ∨ (pts.getD (pts.length - 1) (0, 0)).1 < x then none
  else some (interpSegments pts x)

/-- Full interp1d model (NaN-filling variant): sort the data points by x, then
evaluate at `x`. -/
def interp1d {α : Type} [LinearOrderedField α] (pts : List (α × α)) (x : α) : Option α :=
  interp1dSorted (sortPairs pts) x

/-! ## Limit solver (`LimitSetter._get_limit`) -/

/-- Poisson threshold for a no-background 90 percent confidence limit; name and
spelling as in the source (`no_background_possion = 2.3`). -/
def no_background_possion {α : Type} [LinearOrderedField α] : α := 2.3

/-- The scanning loop of `_get_limit`: walk the sigma grid in order, append
`(log-cross-section, count)` for every evaluated point, and break immediately
after appending the first count that exceeds the threshold. -/
def collectCounts {α : Type} [LinearOrderedField α] (f : α → α) (thr : α) :
    List α → List (α × α)
  | [] => []
  | s :: rest =>
    if thr < f s then [(s, f s)] else (s, f s) :: collectCounts f thr rest

/-- Number of grid points `_get_limit` evaluates: everything up to and
including the first exceedance, or the whole grid when no count exceeds the
threshold.  This is the specification-side description of the early stop. -/
def firstExceedLen {α : Type} [LinearOrderedField α] (f : α → α) (thr : α)
    (sigmas : List α) : Nat :=
  min (sigmas.findIdx (fun s => decide (thr < f s)) + 1) sigmas.length

/-- Outcome of one `_get_limit` call, with `f` the expected count as a function
of log cross-section (`integrate_rate` in the source) and `tenPow` the map
`s ↦ 10 ** s`.  The outer `Option` is `none` when the body raises — the
interp1d constructor requires at least two data points — in which case the
thread dies without writing its slot.  Otherwise the written value is
`itp(no_background_possion)`, itself an `Option` (`none` models NaN). -/
def getLimit {α : Type} [LinearOrderedField α] (f tenPow : α → α) (sigmas : List α) :
    Option (Option α) :=
  if (collectCounts f no_background_possion sigmas).length < 2 then none
  else
    some (interp1d
      ((collectCounts f no_background_possion sigmas).map (fun p => (p.2, tenPow p.1)))
      no_background_possion)

/-- Model of `np.linspace a b n`, the construction of the sigma grid in
`set_limits`. -/
def linspace {α : Type} [LinearOrderedField α] (a b : α) (n : Nat) : List α :=
  (List.range n).map (fun i => a + (b - a) * i / ((n : α) - 1))

lemma collectCounts_eq_take {α : Type} [LinearOrderedField α] (f : α → α) (thr : α) :
    ∀ sigmas : List α,
      collectCounts f thr sigmas =
        (sigmas.take (firstExceedLen f thr sigmas)).map (fun s => (s, f s))
  | [] => rfl
  | s :: rest => by
    by_cases h : thr < f s
    · have hfi : (s :: rest).findIdx (fun s => decide (thr < f s)) = 0 := by
        rw [List.findIdx_cons]
        simp [h]
      rw [collectCounts, if_pos h]
      rw [firstExceedLen, hfi]
      have h1 : min (0 + 1) (s :: rest).length = 1 := by
        simp [Nat.succ_le_succ]
      rw [h1]
      rfl
    · have hfi : (s :: rest).findIdx (fun s => decide (thr < f s)) =
          rest.findIdx (fun s => decide (thr < f s)) + 1 := by
        rw [List.findIdx_cons]
        simp [h]
      rw [collectCounts, if_neg h, collectCounts_eq_take f thr rest]
      rw [firstExceedLen, firstExceedLen, hfi]
      rw [List.length_cons, Nat.succ_min_succ, List.take_succ_cons]
      rfl

/-- C4: the limit solver evaluates the cross-section grid in increasing (list)
order and the collected `(sigma, count)` pairs are exactly the prefix of the
grid up to and including the first point whose count exceeds the threshold —
later grid points are never evaluated; whenever the solve does not raise, its
result is the count-to-cross-section interpolator built over exactly those
pairs, evaluated at the threshold count. -/
theorem C4_prefix_walk_and_interpolation {α : Type} [LinearOrderedField α]
    (f tenPow : α → α) (sigmas : List α) :
    collectCounts f no_background_possion sigmas =
      (sigmas.take (firstExceedLen f no_background_possion sigmas)).map
        (fun s => (s, f s)) ∧
    (¬ (collectCounts f no_background_possion sigmas).length < 2 →
      getLimit f tenPow sigmas =
        some (interp1d
          ((collectCounts f no_background_possion sigmas).map
            (fun p => (p.2, tenPow p.1)))
          no_background_possion)) := by
  refine ⟨collectCounts_eq_take f no_background_possion sigmas, fun h => ?_⟩
  rw [getLimit]
  simp only [if_neg h]

/-- Witness for C4 on the concrete grid `[1, 3, 5]` with identity count function:
the count at `3` is the first exceedance of `2.3`, so exactly `[(1,1), (3,3)]` is
collected (the point `5` is never evaluated) and the solver interpolates over
exactly those two pairs. -/
theorem C4_prefix_walk_and_interpolation_witness :
    collectCounts (fun s : ℚ => s) no_background_possion [1, 3, 5] = [(1, 1), (3, 3)] ∧
    getLimit (fun s : ℚ => s) (fun s => s) [1, 3, 5] =
      some (interp1d [(1, 1), (3, 3)] no_background_possion) := by
  have h := C4_prefix_walk_and_interpolation (fun s : ℚ => s) (fun s => s) [1, 3, 5]
  have hc : collectCounts (fun s : ℚ => s) no_background_possion [1, 3, 5] =
      [(1, 1), (3, 3)] := by
    norm_num [collectCounts, no_background_possion]
  have h2 := h.2 (by rw [hc]; norm_num)
  rw [hc] at h2
  exact ⟨hc, h2⟩

/-- C10: for a mass whose expected count at the first (lowest) grid point
already exceeds the threshold, `_get_limit` collects a single pair, the
one-point interp1d construction raises (at least two data points are required),
the thread dies without writing, and at the return point of `set_limits` the
corresponding result slot still holds the initial value `0`. -/
theorem C10_single_pair_task_raises_slot_keeps_zero {α : Type} [LinearOrderedField α]
    (f tenPow : α → α) (s0 : α) (rest : List α)
    (h : no_background_possion < f s0)
    (k : Nat) (s : SchedState (Option α))
    (hr : Reachable [getLimit f tenPow (s0 :: rest)] (some 0) k s)
    (hterm : Terminal [getLimit f tenPow (s0 :: rest)] s) :
    collectCounts f no_background_possion (s0 :: rest) = [(s0, f s0)] ∧
    getLimit f tenPow (s0 :: rest) = none ∧
    s.results.getD 0 (some 0) = some 0 := by
  have hc : collectCounts f no_background_possion (s0 :: rest) = [(s0, f s0)] := by
    rw [collectCounts, if_pos h]
  have hg : getLimit f tenPow (s0 :: rest) = none := by
    rw [getLimit, hc]
    simp
  refine ⟨hc, hg, ?_⟩
  have hslot := (terminal_slots hr hterm).2 0 (by simp)
  rw [hslot, expectedSlot, List.getD_cons_zero, hg]
  rfl

/-- Witness for C10: count function `s + 3` over the grid `[0, 1]` exceeds `2.3`
already at the first point, and the terminal slot of the one-mass run still
holds `0`. -/
theorem C10_single_pair_task_raises_slot_keeps_zero_witness :
    (⟨1, [(0, false)],
        completeWrite [getLimit (fun s : ℚ => s + 3) (fun s => s) [0, 1]] [some 0] 0⟩ :
      SchedState (Option ℚ)).results.getD 0 (some 0) = some 0 := by
  have h23 : no_background_possion < (fun s : ℚ => s + 3) 0 := by
    norm_num [no_background_possion]
  have s1 : Step [getLimit (fun s : ℚ => s + 3) (fun s => s) [0, 1]] 1
      (initState (Option ℚ) 1 (some 0)) ⟨1, [(0, true)], [some 0]⟩ := by
    apply Step.launch <;> simp [initState]
  have s2 : Step [getLimit (fun s : ℚ => s + 3) (fun s => s) [0, 1]] 1
      (⟨1, [(0, true)], [some 0]⟩ : SchedState (Option ℚ))
      ⟨1, [(0, false)],
        completeWrite [getLimit (fun s : ℚ => s + 3) (fun s => s) [0, 1]] [some 0] 0⟩ := by
    exact Step.complete _ 0 (by decide) rfl
  exact (C10_single_pair_task_raises_slot_keeps_zero (fun s : ℚ => s + 3) (fun s => s) 0 [1]
    h23 1 _ (Relation.ReflTransGen.tail (Relation.ReflTransGen.single s1) s2)
    ⟨rfl, by decide⟩).2.2

lemma collectCounts_mem {α : Type} [LinearOrderedField α] {f : α → α} {thr : α} :
    ∀ {sigmas : List α} {p : α × α}, p ∈ collectCounts f thr sigmas →
      p.1 ∈ sigmas ∧ p.2 = f p.1
  | [], p => by simp [collectCounts]
  | s :: rest, p => by
    rw [collectCounts]
    by_cases h : thr < f s
    · rw [if_pos h]
      intro hp
      rcases List.mem_singleton.1 hp with rfl
      exact ⟨by simp, rfl⟩
    · rw [if_neg h]
      intro hp
      rcases List.mem_cons.1 hp with rfl | hp
      · exact ⟨by simp, rfl⟩
      · obtain ⟨h1, h2⟩ := collectCounts_mem hp
        exact ⟨List.mem_cons_of_mem s h1, h2⟩

/-- Interpolating anywhere inside the x range of the data produces a value
between any lower and upper bound of the y data: scipy picks one clipped
segment and returns a convex combination of its two endpoint y values. -/
lemma interpSegments_bounds {α : Type} [LinearOrderedField α]
    (pts : List (α × α)) (x A B : α) (hn : 2 ≤ pts.length)
    (hy : ∀ p ∈ pts, A ≤ p.2 ∧ p.2 ≤ B)
    (hlo : (pts.getD 0 (0, 0)).1 ≤ x)
    (hhi : x ≤ (pts.getD (pts.length - 1) (0, 0)).1) :
    A ≤ interpSegments pts x ∧ interpSegments pts x ≤ B := by
  have hlast : pts.length - 1 < pts.length := by omega
  have hmaplen : (pts.map Prod.fst).length = pts.length := List.length_map _ _
  have hex : ∃ v ∈ pts.map Prod.fst, (fun v => decide (x ≤ v)) v = true := by
    refine ⟨(pts.getD (pts.length - 1) (0, 0)).1, ?_, by simpa using hhi⟩
    rw [List.getD_eq_getElem _ _ hlast]
    exact List.mem_map_of_mem Prod.fst (List.getElem_mem hlast)
  have ht_lt : (pts.map Prod.fst).findIdx (fun v => decide (x ≤ v)) < pts.length := by
    have := List.findIdx_lt_length_of_exists hex
    omega
  rcases hfi : (pts.map Prod.fst).findIdx (fun v => decide (x ≤ v)) with _ | t
  · -- searchsorted returned 0: here x equals the first x value and the clipped
    -- segment is (0, 1), contributing weight zero to the second point
    have hseg : segIdx pts x = 1 := by
      rw [segIdx, searchsortedLeft, hfi]
      omega
    have hx0le : x ≤ (pts.getD 0 (0, 0)).1 := by
      have hget : (pts.map Prod.fst)[(pts.map Prod.fst).findIdx
          (fun v => decide (x ≤ v))]? = some ((pts.getD 0 (0, 0)).1) := by
        rw [hfi, List.getElem?_eq_getElem (by omega)]
        rw [List.getElem_map, ← List.getD_eq_getElem pts (0, 0) (by omega)]
      exact of_decide_eq_true
        (List.findIdx_of_getElem?_eq_some (p := fun v => decide (x ≤ v)) hget)
    have hxeq : x = (pts.getD 0 (0, 0)).1 := le_antisymm hx0le hlo
    have hval : interpSegments pts x = (pts.getD 0 (0, 0)).2 := by
      simp only [interpSegments, hseg, Nat.sub_self]
      rw [show x - (pts.getD 0 (0, 0)).1 = 0 from by rw [hxeq]; ring]
      rw [zero_mul, zero_div, add_zero]
    obtain ⟨hA, hB⟩ := hy (pts.getD 0 (0, 0))
      (by rw [List.getD_eq_getElem _ _ (by omega : 0 < pts.length)]
          exact List.getElem_mem _)
    rw [hval]
    exact ⟨hA, hB⟩
  · -- searchsorted returned t + 1: the segment is (t, t + 1), with the strict
    -- inequality at t guaranteeing a nondegenerate denominator
    have htlt : t + 1 < pts.length := by omega
    have hseg : segIdx pts x = t + 1 := by
      rw [segIdx, searchsortedLeft, hfi]
      omega
    have hqx : x ≤ (pts.getD (t + 1) (0, 0)).1 := by
      have hget : (pts.map Prod.fst)[(pts.map Prod.fst).findIdx
          (fun v => decide (x ≤ v))]? = some ((pts.getD (t + 1) (0, 0)).1) := by
        rw [hfi, List.getElem?_eq_getElem (by omega)]
        rw [List.getElem_map, ← List.getD_eq_getElem pts (0, 0) htlt]
      exact of_decide_eq_true
        (List.findIdx_of_getElem?_eq_some (p := fun v => decide (x ≤ v)) hget)
    have hpx : (pts.getD t (0, 0)).1 < x := by
      have hlt : t < (pts.map Prod.fst).findIdx (fun v => decide (x ≤ v)) := by omega
      have h2 := List.not_of_lt_findIdx hlt
      rw [List.getElem_map, ← List.getD_eq_getElem pts (0, 0) (by omega : t < pts.length)] at h2
      exact not_le.1 (of_decide_eq_false h2)
    have hval : interpSegments pts x =
        (pts.getD t (0, 0)).2 + (x - (pts.getD t (0, 0)).1) *
          ((pts.getD (t + 1) (0, 0)).2 - (pts.getD t (0, 0)).2) /
          ((pts.getD (t + 1) (0, 0)).1 - (pts.getD t (0, 0)).1) := by
      simp only [interpSegments, hseg, Nat.add_sub_cancel]
    obtain ⟨hpA, hpB⟩ := hy (pts.getD t (0, 0))
      (by rw [List.getD_eq_getElem _ _ (by omega : t < pts.length)]
          exact List.getElem_mem _)
    obtain ⟨hqA, hqB⟩ := hy (pts.getD (t + 1) (0, 0))
      (by rw [List.getD_eq_getElem _ _ htlt]
          exact List.getElem_mem _)
    have hd : (0 : α) < (pts.getD (t + 1) (0, 0)).1 - (pts.getD t (0, 0)).1 := by
      have := lt_of_lt_of_le hpx hqx
      linarith
    rw [hval, mul_div_right_comm]
    have hc0 : 0 ≤ (x - (pts.getD t (0, 0)).1) /
        ((pts.getD (t + 1) (0, 0)).1 - (pts.getD t (0, 0)).1) :=
      div_nonneg (by linarith) (le_of_lt hd)
    have hc1 : (x - (pts.getD t (0, 0)).1) /
        ((pts.getD (t + 1) (0, 0)).1 - (pts.getD t (0, 0)).1) ≤ 1 := by
      rw [div_le_one hd]
      linarith
    constructor
    · nlinarith [mul_nonneg hc0 (sub_nonneg.2 hqA),
        mul_nonneg (sub_nonneg.2 hc1) (sub_nonneg.2 hpA)]
    · nlinarith [mul_nonneg hc0 (sub_nonneg.2 hqB),
        mul_nonneg (sub_nonneg.2 hc1) (sub_nonneg.2 hpB)]

/-- C5: whenever `_get_limit` writes an actual (non-NaN) value into its result
slot, that value lies between `10 ** min_log_sigma` and `10 ** max_log_sigma`
for any bounds enclosing the sigma grid; in particular it is never negative. -/
theorem C5_limit_within_grid_bounds (lo hi : ℝ) (f : ℝ → ℝ) (sigmas : List ℝ)
    (hmem : ∀ s ∈ sigmas, lo ≤ s ∧ s ≤ hi) (v : ℝ)
    (hv : getLimit f (fun s => (10 : ℝ) ^ s) sigmas = some (some v)) :
    (10 : ℝ) ^ lo ≤ v ∧ v ≤ (10 : ℝ) ^ hi ∧ 0 ≤ v := by
  rw [getLimit] at hv
  by_cases hlen : (collectCounts f no_background_possion sigmas).length < 2
  · rw [if_pos hlen] at hv
    exact absurd hv (by simp)
  rw [if_neg hlen] at hv
  have hv2 : interp1d
      ((collectCounts f no_background_possion sigmas).map
        (fun p => (p.2, (10 : ℝ) ^ p.1)))
      no_background_possion = some v := Option.some_inj.1 hv
  rw [interp1d, interp1dSorted] at hv2
  set pts := sortPairs
    ((collectCounts f no_background_possion sigmas).map
      (fun p => (p.2, (10 : ℝ) ^ p.1))) with hpts
  by_cases hrange : no_background_possion < (pts.getD 0 (0, 0)).1 ∨
      (pts.getD (pts.length - 1) (0, 0)).1 < no_background_possion
  · rw [if_pos hrange] at hv2
    cases hv2
  rw [if_neg hrange] at hv2
  push_neg at hrange
  have hv3 : interpSegments pts no_background_possion = v := Option.some_inj.1 hv2
  have hlen2 : 2 ≤ pts.length := by
    rw [hpts, sortPairs, List.length_insertionSort, List.length_map]
    omega
  have hy : ∀ p ∈ pts, (10 : ℝ) ^ lo ≤ p.2 ∧ p.2 ≤ (10 : ℝ) ^ hi := by
    intro q hq
    have hq2 := (List.perm_insertionSort (@pairKeyLE ℝ _) _).mem_iff.1 (hpts ▸ hq)
    obtain ⟨p, hpmem, rfl⟩ := List.mem_map.1 hq2
    obtain ⟨hs, _⟩ := collectCounts_mem hpmem
    obtain ⟨hslo, hshi⟩ := hmem _ hs
    have h110 : (1 : ℝ) < 10 := by norm_num
    exact ⟨(Real.rpow_le_rpow_left_iff h110).2 hslo,
      (Real.rpow_le_rpow_left_iff h110).2 hshi⟩
  have hbounds := interpSegments_bounds pts no_background_possion
    ((10 : ℝ) ^ lo) ((10 : ℝ) ^ hi) hlen2 hy hrange.1 hrange.2
  rw [hv3] at hbounds
  exact ⟨hbounds.1, hbounds.2,
    le_trans (le_of_lt (Real.rpow_pos_of_pos (by norm_num) lo)) hbounds.1⟩

lemma sortPairs_pair {α : Type} [LinearOrderedField α] (p q : α × α) (h : p.1 ≤ q.1) :
    sortPairs [p, q] = [p, q] := by
  rw [sortPairs]
  refine List.Sorted.insertionSort_eq ?_
  simp [List.sorted_cons, pairKeyLE, h]

/-- Evaluation of the two-point interpolant anywhere inside its x range: the
clipped searchsorted always lands on the single segment. -/
lemma interp1dSorted_pair {α : Type} [LinearOrderedField α] (x1 y1 x2 y2 x : α)
    (h1 : x1 ≤ x) (h2 : x ≤ x2) :
    interp1dSorted [(x1, y1), (x2, y2)] x =
      some (y1 + (x - x1) * (y2 - y1) / (x2 - x1)) := by
  have hseg : segIdx [(x1, y1), (x2, y2)] x = 1 := by
    rw [segIdx, searchsortedLeft]
    by_cases hx1 : x ≤ x1
    · simp [List.findIdx_cons, hx1]
    · simp [List.findIdx_cons, hx1, h2]
  rw [interp1dSorted, if_neg (by push_neg; exact ⟨h1, h2⟩)]
  simp only [interpSegments, hseg, Nat.sub_self]
  rfl

/-- Witness for C5 on the concrete grid `[0, 1]` with count function `s + 2`:
the solver returns `1 + (2.3 - 2) * (10 - 1) / (3 - 2) = 3.7`, which lies inside
`[10 ^ 0, 10 ^ 1]` and is nonnegative. -/
theorem C5_limit_within_grid_bounds_witness :
    (10 : ℝ) ^ (0 : ℝ) ≤ 37 / 10 ∧ (37 / 10 : ℝ) ≤ (10 : ℝ) ^ (1 : ℝ) ∧
      (0 : ℝ) ≤ 37 / 10 := by
  have hmem : ∀ s ∈ ([0, 1] : List ℝ), (0 : ℝ) ≤ s ∧ s ≤ 1 := by
    intro s hs
    rcases List.mem_cons.1 hs with rfl | hs
    · norm_num
    · rcases List.mem_singleton.1 hs with rfl
      norm_num
  have hc : collectCounts (fun s : ℝ => s + 2) no_background_possion [0, 1] =
      [(0, 2), (1, 3)] := by
    rw [collectCounts, if_neg (by norm_num [no_background_possion]),
      collectCounts, if_pos (by norm_num [no_background_possion])]
    norm_num
  have hv : getLimit (fun s : ℝ => s + 2) (fun s => (10 : ℝ) ^ s) [0, 1] =
      some (some (37 / 10)) := by
    rw [getLimit, hc, if_neg (by norm_num)]
    have hmap : ([(0, 2), (1, 3)] : List (ℝ × ℝ)).map
        (fun p => (p.2, (10 : ℝ) ^ p.1)) =
        [(2, (10 : ℝ) ^ (0 : ℝ)), (3, (10 : ℝ) ^ (1 : ℝ))] := by
      simp
    rw [hmap, interp1d, sortPairs_pair _ _ (by norm_num),
      interp1dSorted_pair 2 ((10 : ℝ) ^ (0 : ℝ)) 3 ((10 : ℝ) ^ (1 : ℝ))
        no_background_possion (by norm_num [no_background_possion])
        (by norm_num [no_background_possion])]
    simp only [Real.rpow_zero, Real.rpow_one, Option.some.injEq]
    norm_num [no_background_possion]
  exact C5_limit_within_grid_bounds 0 1 (fun s => s + 2) [0, 1] hmem (37 / 10) hv

/-- C3: the end-to-end mock scenario.  With the sigma grid
`linspace (-46) (-44) 5` (as `set_limits` builds it for
`log_sigma_range = (-46, -44)` and `n_sigma_bins = 5`) and the rate integrator
mocked by `count = 10 ** (log_sigma + 46)`, the solver walks to
`-45.5` (count `10 ** 0.5 > 2.3`), interpolates between
`(1, 1e-46)` and `(10 ** 0.5, 10 ** -45.5)` and returns exactly
`2.3e-46`, i.e. the cross-section whose log10 is `log10 2.3 - 46`. -/
theorem C3_mock_scenario_limit_is_2_3e_minus_46 :
    getLimit (fun s : ℝ => (10 : ℝ) ^ (s + 46)) (fun s => (10 : ℝ) ^ s)
      (linspace (-46) (-44) 5) = some (some (2.3 * (10 : ℝ) ^ (-46 : ℝ))) := by
  have hsig : linspace (-46 : ℝ) (-44) 5 = [-46, -45.5, -45, -44.5, -44] := by
    rw [linspace]
    norm_num [List.range_succ]
  have hsq : (10 : ℝ) ^ ((-45.5 : ℝ) + 46) = Real.sqrt 10 := by
    rw [show ((-45.5 : ℝ) + 46) = 1 / 2 by norm_num, ← Real.sqrt_eq_rpow]
  have hsqrt : (2.3 : ℝ) < Real.sqrt 10 := by
    rw [Real.lt_sqrt (by norm_num)]
    norm_num
  have h1 : ¬ (no_background_possion < (10 : ℝ) ^ ((-46 : ℝ) + 46)) := by
    rw [show ((-46 : ℝ) + 46) = 0 by norm_num, Real.rpow_zero]
    norm_num [no_background_possion]
  have h2 : no_background_possion < (10 : ℝ) ^ ((-45.5 : ℝ) + 46) := by
    rw [hsq]
    simpa [no_background_possion] using hsqrt
  have hcollect : collectCounts (fun s : ℝ => (10 : ℝ) ^ (s + 46))
      no_background_possion [-46, -45.5, -45, -44.5, -44] =
      [(-46, (10 : ℝ) ^ ((-46 : ℝ) + 46)), (-45.5, (10 : ℝ) ^ ((-45.5 : ℝ) + 46))] := by
    rw [collectCounts, if_neg h1, collectCounts, if_pos h2]
  rw [hsig, getLimit, hcollect, if_neg (by norm_num)]
  have hmap : ([(-46, (10 : ℝ) ^ ((-46 : ℝ) + 46)),
      (-45.5, (10 : ℝ) ^ ((-45.5 : ℝ) + 46))] : List (ℝ × ℝ)).map
      (fun p => (p.2, (10 : ℝ) ^ p.1)) =
      [((10 : ℝ) ^ ((-46 : ℝ) + 46), (10 : ℝ) ^ (-46 : ℝ)),
        ((10 : ℝ) ^ ((-45.5 : ℝ) + 46), (10 : ℝ) ^ (-45.5 : ℝ))] := by
    simp
  rw [hmap]
  have h10 : (10 : ℝ) ^ ((-46 : ℝ) + 46) = 1 := by
    rw [show ((-46 : ℝ) + 46) = 0 by norm_num, Real.rpow_zero]
  rw [h10, hsq, interp1d,
    sortPairs_pair ((1 : ℝ), (10 : ℝ) ^ (-46 : ℝ)) (Real.sqrt 10, (10 : ℝ) ^ (-45.5 : ℝ))
      (le_of_lt (lt_trans (by norm_num) hsqrt)),
    interp1dSorted_pair 1 ((10 : ℝ) ^ (-46 : ℝ)) (Real.sqrt 10) ((10 : ℝ) ^ (-45.5 : ℝ))
      no_background_possion (by norm_num [no_background_possion])
      (by simpa [no_background_possion] using le_of_lt hsqrt)]
  have e3 : (10 : ℝ) ^ (-45.5 : ℝ) = Real.sqrt 10 * (10 : ℝ) ^ (-46 : ℝ) := by
    rw [show (-45.5 : ℝ) = (-45.5 + 46) + -46 by norm_num,
      Real.rpow_add (by norm_num), hsq]
  have hne : Real.sqrt 10 - 1 ≠ 0 := by
    have : (1 : ℝ) < Real.sqrt 10 := lt_trans (by norm_num) hsqrt
    intro hzero
    rw [sub_eq_zero] at hzero
    exact absurd hzero.symm (ne_of_lt this)
  simp only [Option.some.injEq]
  rw [e3, no_background_possion]
  field_simp
  ring

/-! ## Rate integrator (`LimitSetter.integrate_rate`) -/

/-- Per-energy integrand `d_rate` of `integrate_rate`: evaluate the detector
efficiency at the energy, short-circuit to zero when it is below `1e-6`,
otherwise multiply the external differential rate (the `wimprates.rate_wimp`
call with its unit conversion, kept opaque as `rate`) by the efficiency. -/
def d_rate {α : Type} [LinearOrderedField α] (eff rate : α → α) (e : α) : α :=
  if eff e < 1e-6 then 0 else rate e * eff e

/-- Model of the adaptive quadrature `scipy.integrate.quad f a b`: whatever
evaluation nodes and weights the routine ends up using, its result is a
weighted sum of integrand values; the node/weight list is left abstract. -/
def quadSum {α : Type} [LinearOrderedField α] (nodes : List (α × α)) (f : α → α) : α :=
  (nodes.map (fun nw => nw.2 * f nw.1)).sum

/-- Model of `integrate_rate`: quadrature of `d_rate` over the energy region of
interest, scaled by the detector exposure and the flat efficiency factor. -/
def integrate_rate {α : Type} [LinearOrderedField α] (eff rate : α → α)
    (exposure effFlat : α) (nodes : List (α × α)) : α :=
  quadSum nodes (d_rate eff rate) * (exposure * effFlat)

/-- C6: when the combined efficiency is below `1e-6` at every energy of the
region of interest, the integrand short-circuits to zero at every quadrature
node inside the region, so `integrate_rate` returns exactly `0` — for every
external rate formula (which is never consulted) and every exposure scaling. -/
theorem C6_negligible_efficiency_gives_zero_rate {α : Type} [LinearOrderedField α]
    (eff : α → α) (eLo eHi exposure effFlat : α) (nodes : List (α × α))
    (hnodes : ∀ p ∈ nodes, eLo ≤ p.1 ∧ p.1 ≤ eHi)
    (heff : ∀ e, eLo ≤ e → e ≤ eHi → eff e < 1e-6) :
    ∀ rate : α → α, integrate_rate eff rate exposure effFlat nodes = 0 := by
  intro rate
  rw [integrate_rate, quadSum]
  have hzero : (nodes.map (fun nw => nw.2 * d_rate eff rate nw.1)).sum = 0 := by
    apply List.sum_eq_zero
    intro x hx
    obtain ⟨p, hp, rfl⟩ := List.mem_map.1 hx
    obtain ⟨h1, h2⟩ := hnodes p hp
    rw [d_rate, if_pos (heff p.1 h1 h2), mul_zero]
  rw [hzero, zero_mul]

/-- Witness for C6 with a degenerate zero efficiency curve, the LZ region of
interest `[0, 70]`, the LZ exposure `0.9` and an arbitrary quadrature node. -/
theorem C6_negligible_efficiency_gives_zero_rate_witness :
    integrate_rate (fun _ : ℚ => 0) (fun _ => 999) (9 / 10) 1 [(1, 5)] = 0 := by
  refine C6_negligible_efficiency_gives_zero_rate (fun _ : ℚ => 0) 0 70 (9 / 10) 1
    [(1, 5)] ?_ ?_ _
  · intro p hp
    rcases List.mem_singleton.1 hp with rfl
    norm_num
  · intro e _ _
    norm_num

/-! ## Detector model (class `LZ`) -/

/-- State of an `LZ` instance relevant to the efficiency interpolator: `src`
models the outcome of reading the tabulated dataset from disk (`get_eff`, an
`Except.error` for a missing file or a malformed table) and `itp` is the
`_itp` attribute caching the built interpolator, `none` until the first
query. -/
structure LZState (α : Type) where
  src : Except String (List (α × α))
  itp : Option (List (α × α))

/-- Constructing `LZ()` runs no code: the class defines no init, and both the
dataset read and the interpolator construction are deferred.  Construction
therefore always succeeds, whatever the state of the dataset on disk. -/
def LZ.construct {α : Type} (src : Except String (List (α × α))) :
    Except String (LZState α) :=
  Except.ok ⟨src, none⟩

/-- The `_itp_eff` property: on first use, read the table (propagating a read
failure) and build the interp1d data (sorted by energy); afterwards return the
cached interpolator unchanged. -/
def itpEff {α : Type} [LinearOrderedField α] (s : LZState α) :
    Except String (List (α × α) × LZState α) :=
  match s.itp with
  | some pts => Except.ok (pts, s)
  | none =>
    match s.src with
    | Except.error e => Except.error e
    | Except.ok tbl => Except.ok (sortPairs tbl, ⟨s.src, some (sortPairs tbl)⟩)

/-- Interpolator evaluation with `fill_value=0, bounds_error=False`, as the
efficiency interpolator is constructed: out-of-range energies give `0`. -/
def evalEff {α : Type} [LinearOrderedField α] (pts : List (α × α)) (e : α) : α :=
  (interp1dSorted pts e).getD 0

/-- `LZ.combined_efficiency`: obtain the lazily built, cached interpolator and
evaluate it at the requested recoil energy. -/
def combined_efficiency {α : Type} [LinearOrderedField α] (s : LZState α) (e : α) :
    Except String (α × LZState α) :=
  match itpEff s with
  | Except.error err => Except.error err
  | Except.ok (pts, s2) => Except.ok (evalEff pts e, s2)

/-- C8 counterexample: with the tabulated dataset missing (a failing read),
constructing the detector model still succeeds, so the failure is not raised at
construction time — it is deferred. -/
theorem C8_counterexample :
    (LZ.construct (Except.error "missing file") : Except String (LZState ℚ)) =
      Except.ok ⟨Except.error "missing file", none⟩ := rfl

/-- C8 amended: a missing or malformed tabulated dataset is reported only at the
first efficiency query: `LZ()` always succeeds with the load deferred, and the
first `combined_efficiency` call propagates the resource-load failure. -/
theorem C8_amended_failure_at_first_query {α : Type} [LinearOrderedField α]
    (err : String) (e : α) :
    LZ.construct (Except.error err) =
      Except.ok (⟨Except.error err, none⟩ : LZState α) ∧
    combined_efficiency (⟨Except.error err, none⟩ : LZState α) e =
      Except.error err :=
  ⟨rfl, rfl⟩

/-- Witness for the amended C8 statement at a concrete missing-dataset state. -/
theorem C8_amended_failure_at_first_query_witness :
    LZ.construct (Except.error "missing file") =
      Except.ok (⟨Except.error "missing file", none⟩ : LZState ℚ) ∧
    combined_efficiency (⟨Except.error "missing file", none⟩ : LZState ℚ) 5 =
      Except.error "missing file" :=
  C8_amended_failure_at_first_query "missing file" 5

/-- Exact value of the interpolant on a given segment: for strictly x-sorted
data, an `x` between the i-th and (i+1)-th x values evaluates to the linear
interpolation between those two data points (also when clipping makes scipy
use the neighbouring segment, at a shared endpoint both segments agree). -/
lemma interpSegments_segment {α : Type} [LinearOrderedField α]
    (pts : List (α × α)) (x : α) (i : Nat)
    (hsort : List.Pairwise (fun p q : α × α => p.1 < q.1) pts)
    (hi : i + 1 < pts.length)
    (hx1 : (pts.getD i (0, 0)).1 ≤ x) (hx2 : x ≤ (pts.getD (i + 1) (0, 0)).1) :
    interpSegments pts x =
      (pts.getD i (0, 0)).2 + (x - (pts.getD i (0, 0)).1) *
        ((pts.getD (i + 1) (0, 0)).2 - (pts.getD i (0, 0)).2) /
        ((pts.getD (i + 1) (0, 0)).1 - (pts.getD i (0, 0)).1) := by
  have hilen : i < pts.length := by omega
  have hmaplen : (pts.map Prod.fst).length = pts.length := List.length_map _ _
  have hx1g : (pts[i]).1 ≤ x := by rwa [List.getD_eq_getElem _ _ hilen] at hx1
  have hx2g : x ≤ (pts[i + 1]).1 := by rwa [List.getD_eq_getElem _ _ hi] at hx2
  rw [List.getD_eq_getElem _ _ hilen, List.getD_eq_getElem _ _ hi]
  by_cases hxi : (pts[i]).1 < x
  · -- x is strictly inside: searchsorted lands exactly on i + 1
    have hfi : (pts.map Prod.fst).findIdx (fun v => decide (x ≤ v)) = i + 1 := by
      rw [List.findIdx_eq (by omega)]
      constructor
      · simp only [List.getElem_map]
        exact decide_eq_true hx2g
      · intro j hj
        simp only [List.getElem_map]
        have hjlt : j < pts.length := by omega
        have hle : (pts[j]).1 ≤ (pts[i]).1 := by
          have hji : j ≤ i := by omega
          rcases Nat.eq_or_lt_of_le hji with rfl | hjilt
          · exact le_refl _
          · exact le_of_lt (List.pairwise_iff_getElem.1 hsort j i hjlt hilen hjilt)
        exact decide_eq_false (not_le.2 (lt_of_le_of_lt hle hxi))
    have hseg : segIdx pts x = i + 1 := by
      rw [segIdx, searchsortedLeft, hfi]
      omega
    simp only [interpSegments, hseg, Nat.add_sub_cancel]
    rw [List.getD_eq_getElem _ _ hilen, List.getD_eq_getElem _ _ hi]
  · -- x equals the i-th x value
    have heq : (pts[i]).1 = x := le_antisymm hx1g (not_lt.1 hxi)
    rcases Nat.eq_zero_or_pos i with rfl | hipos
    · -- the clip moves searchsorted from 0 to 1; weight of the second point is 0
      have hfi : (pts.map Prod.fst).findIdx (fun v => decide (x ≤ v)) = 0 := by
        rw [List.findIdx_eq (by omega)]
        refine ⟨?_, fun j hj => absurd hj (Nat.not_lt_zero j)⟩
        simp only [List.getElem_map]
        exact decide_eq_true (le_of_eq heq.symm)
      have hseg : segIdx pts x = 1 := by
        rw [segIdx, searchsortedLeft, hfi]
        omega
      simp only [interpSegments, hseg, Nat.sub_self]
      rw [List.getD_eq_getElem _ _ hilen, List.getD_eq_getElem _ _ hi]
    · -- searchsorted lands on i itself; both neighbouring segments give y_i
      have hfi : (pts.map Prod.fst).findIdx (fun v => decide (x ≤ v)) = i := by
        rw [List.findIdx_eq (by omega)]
        constructor
        · simp only [List.getElem_map]
          exact decide_eq_true (le_of_eq heq.symm)
        · intro j hj
          simp only [List.getElem_map]
          have hjlt : j < pts.length := by omega
          have hlt : (pts[j]).1 < (pts[i]).1 :=
            List.pairwise_iff_getElem.1 hsort j i hjlt hilen hj
          rw [heq] at hlt
          exact decide_eq_false (not_le.2 hlt)
      have hseg : segIdx pts x = i := by
        rw [segIdx, searchsortedLeft, hfi]
        omega
      have him1 : i - 1 < pts.length := by omega
      simp only [interpSegments, hseg]
      rw [List.getD_eq_getElem _ _ him1, List.getD_eq_getElem _ _ hilen]
      have hd : (pts[i - 1]).1 < (pts[i]).1 :=
        List.pairwise_iff_getElem.1 hsort (i - 1) i him1 hilen (by omega)
      have hdne : (pts[i]).1 - (pts[i - 1]).1 ≠ 0 :=
        sub_ne_zero.2 (ne_of_lt hd).symm
      rw [← heq, sub_self, zero_mul, zero_div, add_zero,
        mul_div_cancel_left₀ _ hdne]
      ring

/-- C9: behaviour of `combined_efficiency` for a well-formed tabulated dataset
(strictly increasing energies, at least two rows).  The first query builds the
interpolator from the table exactly once and caches it in the state; every
later query reuses the cached interpolator and leaves the state unchanged;
energies outside the tabulated domain evaluate to `0` instead of extrapolating
or raising; energies inside the domain evaluate to the piecewise-linear
interpolation of the two neighbouring tabulated rows. -/
theorem C9_efficiency_interpolation {α : Type} [LinearOrderedField α]
    (tbl : List (α × α))
    (hsort : List.Pairwise (fun p q : α × α => p.1 < q.1) tbl)
    (hlen : 2 ≤ tbl.length) :
    (∀ e, combined_efficiency (⟨Except.ok tbl, none⟩ : LZState α) e =
        Except.ok (evalEff tbl e, ⟨Except.ok tbl, some tbl⟩)) ∧
    (∀ e, combined_efficiency (⟨Except.ok tbl, some tbl⟩ : LZState α) e =
        Except.ok (evalEff tbl e, ⟨Except.ok tbl, some tbl⟩)) ∧
    (∀ e, (e < (tbl.getD 0 (0, 0)).1 ∨ (tbl.getD (tbl.length - 1) (0, 0)).1 < e) →
        evalEff tbl e = 0) ∧
    (∀ e i, i + 1 < tbl.length → (tbl.getD i (0, 0)).1 ≤ e →
        e ≤ (tbl.getD (i + 1) (0, 0)).1 →
        evalEff tbl e =
          (tbl.getD i (0, 0)).2 + (e - (tbl.getD i (0, 0)).1) *
            ((tbl.getD (i + 1) (0, 0)).2 - (tbl.getD i (0, 0)).2) /
            ((tbl.getD (i + 1) (0, 0)).1 - (tbl.getD i (0, 0)).1)) := by
  have hsp : sortPairs tbl = tbl := by
    rw [sortPairs]
    exact List.Sorted.insertionSort_eq (hsort.imp (fun h => le_of_lt h))
  have hmono : ∀ j k, j < tbl.length → k < tbl.length → j ≤ k →
      (tbl.getD j (0, 0)).1 ≤ (tbl.getD k (0, 0)).1 := by
    intro j k hj hk hjk
    rw [List.getD_eq_getElem _ _ hj, List.getD_eq_getElem _ _ hk]
    rcases Nat.eq_or_lt_of_le hjk with rfl | hlt
    · exact le_refl _
    · exact le_of_lt (List.pairwise_iff_getElem.1 hsort j k hj hk hlt)
  have hitp : itpEff (⟨Except.ok tbl, none⟩ : LZState α) =
      Except.ok (tbl, ⟨Except.ok tbl, some tbl⟩) := by
    have hstep : itpEff (⟨Except.ok tbl, none⟩ : LZState α) =
        Except.ok (sortPairs tbl, ⟨Except.ok tbl, some (sortPairs tbl)⟩) := rfl
    rw [hstep, hsp]
  refine ⟨?_, ?_, ?_, ?_⟩
  · intro e
    simp only [combined_efficiency, hitp]
  · intro e
    rfl
  · intro e he
    rw [evalEff, interp1dSorted, if_pos he]
    rfl
  · intro e i hi hx1 hx2
    have hrange : ¬ (e < (tbl.getD 0 (0, 0)).1 ∨
        (tbl.getD (tbl.length - 1) (0, 0)).1 < e) := by
      push_neg
      constructor
      · exact le_trans (hmono 0 i (by omega) (by omega) (by omega)) hx1
      · exact le_trans hx2 (hmono (i + 1) (tbl.length - 1) (by omega) (by omega) (by omega))
    rw [evalEff, interp1dSorted, if_neg hrange, Option.getD_some]
    exact interpSegments_segment tbl e i hsort hi hx1 hx2

/-- Witness for C9 on the table `[(0, 0), (10, 1)]`: the first query caches the
interpolator, the out-of-range energy `-1` gives efficiency `0`, and the
in-range energy `5` gives the interpolated efficiency `1/2`. -/
theorem C9_efficiency_interpolation_witness :
    combined_efficiency (⟨Except.ok [((0 : ℚ), (0 : ℚ)), (10, 1)], none⟩ : LZState ℚ) 5 =
      Except.ok (evalEff [((0 : ℚ), (0 : ℚ)), (10, 1)] 5,
        ⟨Except.ok [((0 : ℚ), (0 : ℚ)), (10, 1)],
          some [((0 : ℚ), (0 : ℚ)), (10, 1)]⟩) ∧
    evalEff [((0 : ℚ), (0 : ℚ)), (10, 1)] (-1) = 0 ∧
    evalEff [((0 : ℚ), (0 : ℚ)), (10, 1)] 5 = 1 / 2 := by
  have h := C9_efficiency_interpolation [((0 : ℚ), (0 : ℚ)), (10, 1)]
    (by norm_num [List.pairwise_cons]) (by norm_num)
  refine ⟨h.1 5, h.2.2.1 (-1) ?_, ?_⟩
  · left
    norm_num
  · have h4 := h.2.2.2 5 0 (by norm_num) (by norm_num) (by norm_num)
    rw [h4]
    norm_num

end ThesisPlots
